import Mathlib

/-!
# MouseClick: click log, expiry filter and renderer

A shallow embedding of `src/main.cpp` (class `ClickWidget`).

* The widget state is the vector `m_clicks`; a `std::vector` is a `List`.
* `QDateTime::currentMSecsSinceEpoch()` is a read of the environment: every
  member function that calls it takes the value read as the argument `now`.
* `event->position()` is likewise the argument `pos` of `mousePressEvent`.
* A `QPointF` is only ever copied by the program (never compared, never used in
  arithmetic), so the coordinate type is a parameter `Pos`.
* `qint64` values are integers. The only arithmetic on them is `now - 3000`,
  computed in `qint64`: the model computes it with two's-complement wrap-around
  (`wrapInt64`). It is the exact difference for every `now` from
  `INT64_MIN + 3000` to `INT64_MAX` (`qint64_sub_exact` below), and the theorems
  that relate the threshold to the age `now - timestamp` carry that range as a
  hypothesis.
* `QPainter` is a record of the pen, the brush, the render hint and the list of
  ellipses drawn so far, in drawing order (later ones are painted over earlier
  ones).
* Element accesses of the vector (`operator[]`, `back()`) can fail: the
  painting code returns `none` exactly when it would read outside the vector.
* `update()` and `QWidget::mousePressEvent` only talk to the toolkit (they post
  a repaint request and forward the event); they do not touch `m_clicks`.
-/

namespace MouseClick

/-! ## Data model -/

/-- Click record of the program: the position of the press and the millisecond
timestamp at which it was handled (`struct ClickPoint`). -/
structure ClickPoint (Pos : Type) where
  pos : Pos
  timestamp : Int
deriving DecidableEq, Repr

/-- An RGB colour, `QColor(r, g, b)`. -/
structure QColor where
  red : Nat
  green : Nat
  blue : Nat
deriving DecidableEq, Repr

/-- Pen styles the program meets: the painter's initial solid pen and `Qt::NoPen`. -/
inductive QPen where
  | SolidLine
  | NoPen
deriving DecidableEq, Repr

/-- Brushes the program meets: the painter's initial `Qt::NoBrush` and a solid colour. -/
inductive QBrush where
  | NoBrush
  | SolidPattern (color : QColor)
deriving DecidableEq, Repr

/-- One executed `drawEllipse(center, rx, ry)` together with the pen and brush
that were current when it ran. -/
structure Ellipse (Pos : Type) where
  center : Pos
  rx : Int
  ry : Int
  pen : QPen
  brush : QBrush
deriving DecidableEq, Repr

/-- Painter state: render hint, current pen and brush, and what has been drawn,
oldest first. -/
structure QPainter (Pos : Type) where
  antialiasing : Bool
  pen : QPen
  brush : QBrush
  drawn : List (Ellipse Pos)
deriving DecidableEq, Repr

/-- Widget state: the vector of recorded clicks. -/
structure ClickWidget (Pos : Type) where
  m_clicks : List (ClickPoint Pos)
deriving DecidableEq, Repr

/-! ## Painter operations -/

/-- Freshly constructed painter, `QPainter painter(this)`. -/
def QPainter.begin {Pos : Type} : QPainter Pos :=
  { antialiasing := false, pen := QPen.SolidLine, brush := QBrush.NoBrush, drawn := [] }

/-- Effect of `painter.setRenderHint(QPainter::Antialiasing, enabled)`. -/
def QPainter.setRenderHint {Pos : Type} (painter : QPainter Pos) (enabled : Bool) : QPainter Pos :=
  { painter with antialiasing := enabled }

/-- Effect of `painter.setPen(style)`. -/
def QPainter.setPen {Pos : Type} (painter : QPainter Pos) (style : QPen) : QPainter Pos :=
  { painter with pen := style }

/-- Effect of `painter.setBrush(color)`. -/
def QPainter.setBrush {Pos : Type} (painter : QPainter Pos) (color : QColor) : QPainter Pos :=
  { painter with brush := QBrush.SolidPattern color }

/-- Effect of `painter.drawEllipse(center, rx, ry)`: one more ellipse, drawn
with the current pen and brush, on top of everything drawn before. -/
def QPainter.drawEllipse {Pos : Type} (painter : QPainter Pos) (center : Pos) (rx ry : Int) :
    QPainter Pos :=
  { painter with
    drawn := painter.drawn ++
      [{ center := center, rx := rx, ry := ry, pen := painter.pen, brush := painter.brush }] }

/-! ## Vector operations -/

/-- Model of `std::remove_if(v.begin(), v.end(), p)` as the C++ standard specifies it:
the elements for which `p` is false are shifted to the front of the range, their
relative order preserved; the result is the vector after the shift and the position
of the new logical end. The slots from that position on keep whatever they held
(the standard leaves their values unspecified). -/
def remove_if {α : Type} (v : List α) (p : α → Bool) : List α × Nat :=
  let kept := v.filter (fun x => !p x)
  (kept ++ v.drop kept.length, kept.length)

/-- Model of `v.erase(first, last)` with iterators as positions. -/
def erase {α : Type} (v : List α) (first last : Nat) : List α :=
  v.take first ++ v.drop last

/-- Model of `v.push_back(x)`. -/
def push_back {α : Type} (v : List α) (x : α) : List α :=
  v ++ [x]

/-- Model of `v[i]`: `none` when `i` is not a valid index. -/
def index {α : Type} (v : List α) (i : Nat) : Option α :=
  v[i]?

/-- Model of `v.back()`: `none` on an empty vector. -/
def back {α : Type} (v : List α) : Option α :=
  v.getLast?

/-! ## Machine integers -/

/-- Value of a `qint64` expression under two's-complement wrap-around: the integer
congruent to `z` modulo `2 ^ 64` that lies between `-2 ^ 63` and `2 ^ 63 - 1`. -/
def wrapInt64 (z : Int) : Int :=
  (z + 2 ^ 63) % 2 ^ 64 - 2 ^ 63

/-! ## Member functions of `ClickWidget` -/

/-- Constructor: the click vector starts empty. -/
def ClickWidget.init {Pos : Type} : ClickWidget Pos :=
  { m_clicks := [] }

/-- Body of `ClickWidget::pruneOldClicks`, with the clock reading as `now`. The
threshold is the `qint64` value of `now - 3000`. -/
def ClickWidget.pruneOldClicks {Pos : Type} (now : Int) (w : ClickWidget Pos) : ClickWidget Pos :=
  let threshold : Int := wrapInt64 (now - 3000)
  let r := remove_if w.m_clicks (fun click => decide (click.timestamp < threshold))
  { m_clicks := erase r.1 r.2 r.1.length }

/-- Body of `ClickWidget::mousePressEvent`, with the event position as `pos` and the
clock reading as `now`. -/
def ClickWidget.mousePressEvent {Pos : Type} (pos : Pos) (now : Int) (w : ClickWidget Pos) :
    ClickWidget Pos :=
  let point : ClickPoint Pos := { pos := pos, timestamp := now }
  { m_clicks := push_back w.m_clicks point }

/-- Colour of the dots of all clicks but the last, `QColor(30, 144, 255)`. -/
def dodgerBlue : QColor := { red := 30, green := 144, blue := 255 }

/-- Colour of the dot of the last click, `QColor(220, 20, 60)`. -/
def crimson : QColor := { red := 220, green := 20, blue := 60 }

/-- Loop `for (size_t i = 0; i + 1 < m_clicks.size(); ++i)` of `paintEvent`, entered at
index `i`: draws `m_clicks[i]` with the given radius and goes on with `i + 1`. The
index never exceeds the size, so `i + 1` does not wrap in `size_t`. -/
def paintLoop {Pos : Type} (m_clicks : List (ClickPoint Pos)) (radius : Int) (i : Nat)
    (painter : QPainter Pos) : Option (QPainter Pos) :=
  if i + 1 < m_clicks.length then
    match index m_clicks i with
    | none => none
    | some click => paintLoop m_clicks radius (i + 1) (painter.drawEllipse click.pos radius radius)
  else
    some painter
termination_by m_clicks.length - i

/-- Body of `ClickWidget::paintEvent`, with the clock reading as `now`: the widget
after the call and the painter when it goes out of scope, or `none` when an
element access falls outside the vector. -/
def ClickWidget.paintEvent {Pos : Type} (now : Int) (w : ClickWidget Pos) :
    Option (ClickWidget Pos × QPainter Pos) :=
  let w := w.pruneOldClicks now
  let painter : QPainter Pos := QPainter.begin
  let painter := painter.setRenderHint true
  let radius : Int := 8
  if !w.m_clicks.isEmpty then
    let painter := painter.setPen QPen.NoPen
    let painter := painter.setBrush dodgerBlue
    match paintLoop w.m_clicks radius 0 painter with
    | none => none
    | some painter =>
      let painter := painter.setBrush crimson
      match back w.m_clicks with
      | none => none
      | some last => some (w, painter.drawEllipse last.pos (radius + 2) (radius + 2))
  else
    some (w, painter)

/-- Handler connected to the clean-up timer: `pruneOldClicks(); update();`. -/
def ClickWidget.onTimeout {Pos : Type} (now : Int) (w : ClickWidget Pos) : ClickWidget Pos :=
  w.pruneOldClicks now

/-! ## Event loop -/

/-- Events the toolkit delivers to the widget, each with the clock reading its
handler obtains. -/
inductive Event (Pos : Type) where
  | mousePress (pos : Pos) (now : Int)
  | timeout (now : Int)
  | paint (now : Int)
deriving DecidableEq, Repr

/-- Handling of one event. -/
def step {Pos : Type} (w : ClickWidget Pos) : Event Pos → ClickWidget Pos
  | Event.mousePress pos now => w.mousePressEvent pos now
  | Event.timeout now => w.onTimeout now
  | Event.paint now =>
    match w.paintEvent now with
    | some r => r.1
    | none => w

/-- Widget state after a sequence of events delivered to a new widget. -/
def run {Pos : Type} (events : List (Event Pos)) : ClickWidget Pos :=
  events.foldl step ClickWidget.init

/-- Timestamps that the `mousePress` events of a sequence record, in delivery order. -/
def recordedTimes {Pos : Type} (events : List (Event Pos)) : List Int :=
  events.filterMap fun e =>
    match e with
    | Event.mousePress _ now => some now
    | _ => none

/-- Dot of a click that is not the last one: radius 8, dodger blue, no outline. -/
def blueDot {Pos : Type} (c : ClickPoint Pos) : Ellipse Pos :=
  { center := c.pos, rx := 8, ry := 8, pen := QPen.NoPen, brush := QBrush.SolidPattern dodgerBlue }

/-- Dot of the last click: radius 10, crimson, no outline. -/
def crimsonDot {Pos : Type} (c : ClickPoint Pos) : Ellipse Pos :=
  { center := c.pos, rx := 10, ry := 10, pen := QPen.NoPen, brush := QBrush.SolidPattern crimson }

/-- Log ordered by non-decreasing timestamp: each entry is not later than the next. -/
def Ordered {Pos : Type} (l : List (ClickPoint Pos)) : Prop :=
  List.Chain' (fun a b => a.timestamp ≤ b.timestamp) l

/-! ## Basic facts about the model -/

/-- In the range of `qint64` values from `INT64_MIN + 3000` upwards the machine
subtraction `now - 3000` is the integer subtraction the model uses. -/
theorem qint64_sub_exact (now : Int) (hlo : -(2 : Int) ^ 63 + 3000 ≤ now) (hhi : now < 2 ^ 63) :
    wrapInt64 (now - 3000) = now - 3000 := by
  unfold wrapInt64
  have h0 : (0 : Int) ≤ now - 3000 + 2 ^ 63 := by omega
  have h1 : now - 3000 + 2 ^ 63 < 2 ^ 64 := by omega
  rw [Int.emod_eq_of_lt h0 h1]
  omega

/-- Erasing from the end returned by `remove_if` leaves exactly the elements
for which the predicate is false, in their original order. -/
theorem erase_remove_if {α : Type} (v : List α) (p : α → Bool) :
    erase (remove_if v p).1 (remove_if v p).2 (remove_if v p).1.length =
      v.filter (fun x => !p x) := by
  have hle : (v.filter (fun x => !p x)).length ≤ v.length := List.length_filter_le _ v
  simp [erase, remove_if]
  omega

/-- Wrap-around never lowers a value below `2 ^ 63`. -/
theorem le_wrapInt64 (z : Int) (hhi : z < 2 ^ 63) : z ≤ wrapInt64 z := by
  unfold wrapInt64
  omega

/-- Wrap-around never raises a value from `-2 ^ 63` upwards. -/
theorem wrapInt64_le (z : Int) (hlo : -(2 : Int) ^ 63 ≤ z) : wrapInt64 z ≤ z := by
  unfold wrapInt64
  omega

/-- The log after `pruneOldClicks` is the stable filter of the log before by
`threshold ≤ timestamp`, with the threshold as the machine computes it. -/
theorem pruneOldClicks_eq_filter {Pos : Type} (now : Int) (w : ClickWidget Pos) :
    (w.pruneOldClicks now).m_clicks =
      w.m_clicks.filter (fun c => decide (wrapInt64 (now - 3000) ≤ c.timestamp)) := by
  unfold ClickWidget.pruneOldClicks
  simp only [erase_remove_if]
  apply List.filter_congr
  intro c _
  by_cases h : c.timestamp < wrapInt64 (now - 3000)
  · have h2 : ¬ (wrapInt64 (now - 3000) ≤ c.timestamp) := by omega
    simp [h, h2]
  · have h2 : wrapInt64 (now - 3000) ≤ c.timestamp := by omega
    simp [h, h2]

/-- For a clock reading from `INT64_MIN + 3000` to `INT64_MAX` the log after
`pruneOldClicks` is the stable filter of the log before by `now - 3000 ≤ timestamp`. -/
theorem pruneOldClicks_eq_filter_of_range {Pos : Type} (now : Int) (w : ClickWidget Pos)
    (hlo : -(2 : Int) ^ 63 + 3000 ≤ now) (hhi : now < 2 ^ 63) :
    (w.pruneOldClicks now).m_clicks =
      w.m_clicks.filter (fun c => decide (now - 3000 ≤ c.timestamp)) := by
  rw [pruneOldClicks_eq_filter, qint64_sub_exact now hlo hhi]

/-- The loop of `paintEvent` entered at index `i` never reads outside the vector,
and draws the entries from `i` up to but excluding the last, in order. -/
theorem paintLoop_eq {Pos : Type} (l : List (ClickPoint Pos)) (radius : Int) :
    ∀ (n i : Nat) (painter : QPainter Pos), l.length - i = n →
      paintLoop l radius i painter =
        some { painter with
          drawn := painter.drawn ++ (l.dropLast.drop i).map (fun c =>
            ({ center := c.pos, rx := radius, ry := radius,
               pen := painter.pen, brush := painter.brush } : Ellipse Pos)) } := by
  intro n
  induction n with
  | zero =>
    intro i painter h
    rw [paintLoop]
    have hi : ¬ (i + 1 < l.length) := by omega
    have hd : l.dropLast.drop i = [] := by
      apply List.drop_eq_nil_of_le
      simp
      omega
    simp [hi, hd]
  | succ n ih =>
    intro i painter h
    rw [paintLoop]
    by_cases hi : i + 1 < l.length
    · have hlt : i < l.length := by omega
      have hidx : index l i = some (l.get ⟨i, hlt⟩) := by
        simp [index, List.getElem?_eq_getElem hlt]
      simp only [hi, if_true, hidx]
      rw [ih (i + 1) _ (by omega)]
      have hlt2 : i < l.dropLast.length := by simp; omega
      have hd : l.dropLast.drop i = l.get ⟨i, hlt⟩ :: l.dropLast.drop (i + 1) := by
        rw [List.drop_eq_getElem_cons hlt2]
        simp [List.getElem_dropLast]
      simp [hd, QPainter.drawEllipse]
    · have hd : l.dropLast.drop i = [] := by
        apply List.drop_eq_nil_of_le
        simp
        omega
      simp [hi, hd]

/-- Below the range the threshold wraps: at clock reading `INT64_MIN + 100` it is
`INT64_MAX - 2899`, and an event recorded 50 ms earlier is removed. -/
theorem pruneOldClicks_below_range :
    wrapInt64 (-(2 : Int) ^ 63 + 100 - 3000) = 2 ^ 63 - 2900 ∧
    ((ClickWidget.mk [(⟨(1, 1), -(2 : Int) ^ 63 + 50⟩ : ClickPoint (Int × Int))]).pruneOldClicks
      (-(2 : Int) ^ 63 + 100)).m_clicks = [] := by
  constructor
  · decide
  · decide

/-- Painting never reads outside the vector: it returns the pruned log and a
painter that has drawn a blue dot for every entry but the last, in log order,
and then a crimson dot for the last entry. -/
theorem paintEvent_eq {Pos : Type} (now : Int) (w : ClickWidget Pos) :
    ∃ painter : QPainter Pos,
      w.paintEvent now = some (w.pruneOldClicks now, painter) ∧
      painter.drawn =
        (w.pruneOldClicks now).m_clicks.dropLast.map blueDot ++
          ((w.pruneOldClicks now).m_clicks.getLast?.map crimsonDot).toList := by
  unfold ClickWidget.paintEvent
  generalize (w.pruneOldClicks now) = w1
  rcases w1 with ⟨l⟩
  rcases List.eq_nil_or_concat l with hl | ⟨l0, c, hl⟩
  · subst hl
    simp [QPainter.begin, QPainter.setRenderHint]
  · subst hl
    simp [paintLoop_eq _ _ _ _ _ rfl, back, QPainter.begin, QPainter.setRenderHint,
      QPainter.setPen, QPainter.setBrush, QPainter.drawEllipse, blueDot, crimsonDot]

/-- Painting an empty log draws nothing and leaves the painter as set up. -/
theorem paintEvent_of_pruned_nil {Pos : Type} (now : Int) (w : ClickWidget Pos)
    (h : (w.pruneOldClicks now).m_clicks = []) :
    w.paintEvent now =
      some ({ m_clicks := [] },
        { antialiasing := true, pen := QPen.SolidLine, brush := QBrush.NoBrush, drawn := [] }) := by
  unfold ClickWidget.paintEvent
  generalize (w.pruneOldClicks now) = w1 at h
  rcases w1 with ⟨l⟩
  simp at h
  subst h
  simp [QPainter.begin, QPainter.setRenderHint]

/-- Painting a log whose pruned form ends in `c` returns that log and the painter
with no pen, the crimson brush, and the blue dots of the entries before `c`
followed by the crimson dot of `c`. -/
theorem paintEvent_of_pruned_concat {Pos : Type} (now : Int) (w : ClickWidget Pos)
    (l0 : List (ClickPoint Pos)) (c : ClickPoint Pos)
    (h : (w.pruneOldClicks now).m_clicks = l0 ++ [c]) :
    w.paintEvent now =
      some ({ m_clicks := l0 ++ [c] },
        { antialiasing := true, pen := QPen.NoPen, brush := QBrush.SolidPattern crimson,
          drawn := l0.map blueDot ++ [crimsonDot c] }) := by
  unfold ClickWidget.paintEvent
  generalize (w.pruneOldClicks now) = w1 at h
  rcases w1 with ⟨l⟩
  simp at h
  subst h
  simp [paintLoop_eq _ _ _ _ _ rfl, back, QPainter.begin, QPainter.setRenderHint,
    QPainter.setPen, QPainter.setBrush, QPainter.drawEllipse, blueDot, crimsonDot]

/-- A log is ordered exactly when its timestamps are pairwise non-decreasing. -/
theorem ordered_iff_pairwise {Pos : Type} (l : List (ClickPoint Pos)) :
    Ordered l ↔ List.Pairwise (fun a b : ClickPoint Pos => a.timestamp ≤ b.timestamp) l := by
  unfold Ordered
  haveI : IsTrans (ClickPoint Pos) (fun a b => a.timestamp ≤ b.timestamp) :=
    ⟨fun _ _ _ hab hbc => le_trans hab hbc⟩
  exact List.chain'_iff_pairwise

/-- In a log with pairwise non-decreasing timestamps the entries below a threshold
form an initial segment: the log is that segment followed by the stable filter of the log by
`threshold ≤ timestamp`. -/
theorem filter_ge_is_suffix {Pos : Type} (threshold : Int) :
    ∀ l : List (ClickPoint Pos),
      List.Pairwise (fun a b : ClickPoint Pos => a.timestamp ≤ b.timestamp) l →
      ∃ removed : List (ClickPoint Pos),
        l = removed ++ l.filter (fun c => decide (threshold ≤ c.timestamp)) ∧
        ∀ c ∈ removed, c.timestamp < threshold := by
  intro l
  induction l with
  | nil =>
    intro _
    exact ⟨[], by simp, by simp⟩
  | cons a l ih =>
    intro hp
    rw [List.pairwise_cons] at hp
    by_cases ha : threshold ≤ a.timestamp
    · refine ⟨[], ?_, by simp⟩
      have hall : ∀ c ∈ a :: l, decide (threshold ≤ c.timestamp) = true := by
        intro c hc
        rcases List.mem_cons.mp hc with rfl | hc
        · simpa using ha
        · have := hp.1 c hc
          simp only [decide_eq_true_eq]
          omega
      rw [List.filter_eq_self.mpr hall]
      rfl
    · obtain ⟨removed, heq, hlt⟩ := ih hp.2
      refine ⟨a :: removed, ?_, ?_⟩
      · have hf : (a :: l).filter (fun c => decide (threshold ≤ c.timestamp)) =
            l.filter (fun c => decide (threshold ≤ c.timestamp)) := by
          simp [List.filter_cons, ha]
        rw [hf, List.cons_append, ← heq]
      · intro c hc
        rcases List.mem_cons.mp hc with rfl | hc
        · omega
        · exact hlt c hc

/-- Handling a paint event leaves the pruned log. -/
theorem step_paint {Pos : Type} (w : ClickWidget Pos) (now : Int) :
    step w (Event.paint now) = w.pruneOldClicks now := by
  obtain ⟨painter, hp, _⟩ := paintEvent_eq now w
  simp [step, hp]

/-- Timestamps of the log after a prune are a subsequence of those before. -/
theorem prune_timestamps_sublist {Pos : Type} (now : Int) (w : ClickWidget Pos) :
    List.Sublist ((w.pruneOldClicks now).m_clicks.map (fun c => c.timestamp))
      (w.m_clicks.map (fun c => c.timestamp)) := by
  rw [pruneOldClicks_eq_filter]
  exact (List.filter_sublist _).map _

/-- If the timestamps in the log followed by the timestamps still to be recorded are
pairwise non-decreasing, so are the timestamps in the log after the events. -/
theorem foldl_step_pairwise {Pos : Type} (events : List (Event Pos)) :
    ∀ w : ClickWidget Pos,
      List.Pairwise (fun a b : Int => a ≤ b)
        (w.m_clicks.map (fun c => c.timestamp) ++ recordedTimes events) →
      List.Pairwise (fun a b : Int => a ≤ b)
        ((events.foldl step w).m_clicks.map (fun c => c.timestamp)) := by
  induction events with
  | nil =>
    intro w h
    simpa [recordedTimes] using h
  | cons e es ih =>
    intro w h
    rw [List.foldl_cons]
    apply ih
    cases e with
    | mousePress pos now =>
      simpa [step, ClickWidget.mousePressEvent, push_back, recordedTimes] using h
    | timeout now =>
      have hs := (prune_timestamps_sublist now w).append_right (recordedTimes es)
      have h2 : List.Pairwise (fun a b : Int => a ≤ b)
          (w.m_clicks.map (fun c => c.timestamp) ++ recordedTimes es) := by
        simpa [recordedTimes] using h
      exact h2.sublist hs
    | paint now =>
      have hs := (prune_timestamps_sublist now w).append_right (recordedTimes es)
      have h2 : List.Pairwise (fun a b : Int => a ≤ b)
          (w.m_clicks.map (fun c => c.timestamp) ++ recordedTimes es) := by
        simpa [recordedTimes] using h
      rw [step_paint]
      exact h2.sublist hs

/-! ## Pruning -/

/-- C1: for every log and every clock reading `now` for which the `qint64` subtraction
`now - 3000` does not overflow, after `pruneOldClicks` every event left in the log has
`now - timestamp ≤ 3000`; every event of the log before that is no longer in it has
`now - timestamp > 3000`; an event aged exactly 3000 ms is kept; and the log before
is, up to order, the log after together with its events older than 3000 ms. -/
theorem prune_age_bound {Pos : Type} (now : Int) (w : ClickWidget Pos)
    (hlo : -(2 : Int) ^ 63 + 3000 ≤ now) (hhi : now < 2 ^ 63) :
    (∀ c ∈ (w.pruneOldClicks now).m_clicks, now - c.timestamp ≤ 3000) ∧
    (∀ c ∈ w.m_clicks, c ∉ (w.pruneOldClicks now).m_clicks → now - c.timestamp > 3000) ∧
    (∀ c ∈ w.m_clicks, now - c.timestamp = 3000 → c ∈ (w.pruneOldClicks now).m_clicks) ∧
    List.Perm ((w.pruneOldClicks now).m_clicks ++
        w.m_clicks.filter (fun c => decide (now - c.timestamp > 3000))) w.m_clicks := by
  rw [pruneOldClicks_eq_filter_of_range now w hlo hhi]
  refine ⟨?_, ?_, ?_, ?_⟩
  · intro c hc
    have h := (List.mem_filter.mp hc).2
    simp only [decide_eq_true_eq] at h
    omega
  · intro c hc hnot
    by_contra hage
    apply hnot
    apply List.mem_filter.mpr
    refine ⟨hc, ?_⟩
    simp only [decide_eq_true_eq]
    omega
  · intro c hc hage
    apply List.mem_filter.mpr
    refine ⟨hc, ?_⟩
    simp only [decide_eq_true_eq]
    omega
  · have hfun : (fun c : ClickPoint Pos => decide (now - c.timestamp > 3000)) =
        (fun c => !(decide (now - 3000 ≤ c.timestamp))) := by
      funext c
      by_cases h : now - 3000 ≤ c.timestamp
      · have h2 : ¬ (now - c.timestamp > 3000) := by omega
        simp [h, h2]
      · have h2 : now - c.timestamp > 3000 := by omega
        simp [h, h2]
    rw [hfun]
    exact List.filter_append_perm _ _

/-- Witness of C1: events recorded at 0, 100 and 3100 pruned at 3100; the event aged
exactly 3000 ms stays. -/
theorem prune_age_bound_witness :
    ((ClickWidget.mk [(⟨(1, 1), 0⟩ : ClickPoint (Int × Int)), ⟨(2, 2), 100⟩,
        ⟨(3, 3), 3100⟩]).pruneOldClicks 3100).m_clicks = [⟨(2, 2), 100⟩, ⟨(3, 3), 3100⟩] ∧
    ((ClickPoint.mk ((1, 1) : Int × Int) 0) ∉
        ((ClickWidget.mk [(⟨(1, 1), 0⟩ : ClickPoint (Int × Int)), ⟨(2, 2), 100⟩,
          ⟨(3, 3), 3100⟩]).pruneOldClicks 3100).m_clicks →
      (3100 : Int) - (ClickPoint.mk ((1, 1) : Int × Int) 0).timestamp > 3000) := by
  refine ⟨by decide, ?_⟩
  exact (prune_age_bound 3100
    (ClickWidget.mk [(⟨(1, 1), 0⟩ : ClickPoint (Int × Int)), ⟨(2, 2), 100⟩, ⟨(3, 3), 3100⟩])
    (by decide) (by decide)).2.1 ⟨(1, 1), 0⟩ (by decide)

/-- C2: `pruneOldClicks` is idempotent: pruning a pruned log again with the same clock
reading changes nothing. -/
theorem prune_idempotent {Pos : Type} (now : Int) (w : ClickWidget Pos) :
    (w.pruneOldClicks now).pruneOldClicks now = w.pruneOldClicks now := by
  have h : ((w.pruneOldClicks now).pruneOldClicks now).m_clicks =
      (w.pruneOldClicks now).m_clicks := by
    rw [pruneOldClicks_eq_filter now (w.pruneOldClicks now), pruneOldClicks_eq_filter now w]
    simp [List.filter_filter]
  cases hw : (w.pruneOldClicks now).pruneOldClicks now
  cases hw2 : w.pruneOldClicks now
  rw [hw, hw2] at h
  simpa using h

/-- C3: `pruneOldClicks` keeps order: for every log and every clock reading the log
after is a subsequence of the log before (no event reordered, duplicated, altered or
introduced), and for every clock reading for which the `qint64` subtraction
`now - 3000` does not overflow it is the stable filter of the log before by
`timestamp ≥ now - 3000`. -/
theorem prune_preserves_order {Pos : Type} (now : Int) (w : ClickWidget Pos) :
    List.Sublist (w.pruneOldClicks now).m_clicks w.m_clicks ∧
    (-(2 : Int) ^ 63 + 3000 ≤ now → now < 2 ^ 63 →
      (w.pruneOldClicks now).m_clicks =
        w.m_clicks.filter (fun c => decide (c.timestamp ≥ now - 3000))) := by
  constructor
  · rw [pruneOldClicks_eq_filter]
    exact List.filter_sublist _
  · intro hlo hhi
    exact pruneOldClicks_eq_filter_of_range now w hlo hhi

/-- Witness of C3: events recorded at 0, 100 and 3100 pruned at 3100. -/
theorem prune_preserves_order_witness :
    ((ClickWidget.mk [(⟨(1, 1), 0⟩ : ClickPoint (Int × Int)), ⟨(2, 2), 100⟩,
        ⟨(3, 3), 3100⟩]).pruneOldClicks 3100).m_clicks =
      [(⟨(1, 1), 0⟩ : ClickPoint (Int × Int)), ⟨(2, 2), 100⟩, ⟨(3, 3), 3100⟩].filter
        (fun c => decide (c.timestamp ≥ 3100 - 3000)) :=
  (prune_preserves_order 3100
    (ClickWidget.mk [(⟨(1, 1), 0⟩ : ClickPoint (Int × Int)), ⟨(2, 2), 100⟩,
      ⟨(3, 3), 3100⟩])).2 (by decide) (by decide)

/-! ## Recording -/

/-- C7: `mousePressEvent` is total and appends: for every log, position and timestamp
the log after is the log before followed by one event with that position and
timestamp; the length grows by one, every earlier index holds the event it held
before, and nothing is pruned. -/
theorem record_appends {Pos : Type} (pos : Pos) (now : Int) (w : ClickWidget Pos) :
    (w.mousePressEvent pos now).m_clicks = w.m_clicks ++ [{ pos := pos, timestamp := now }] ∧
    (w.mousePressEvent pos now).m_clicks.length = w.m_clicks.length + 1 ∧
    (w.mousePressEvent pos now).m_clicks.take w.m_clicks.length = w.m_clicks ∧
    (∀ i, i < w.m_clicks.length → (w.mousePressEvent pos now).m_clicks[i]? = w.m_clicks[i]?) ∧
    (w.mousePressEvent pos now).m_clicks.getLast? = some { pos := pos, timestamp := now } := by
  refine ⟨rfl, ?_, ?_, ?_, ?_⟩
  · simp [ClickWidget.mousePressEvent, push_back]
  · simp [ClickWidget.mousePressEvent, push_back]
  · intro i hi
    simp [ClickWidget.mousePressEvent, push_back, List.getElem?_append_left hi]
  · simp [ClickWidget.mousePressEvent, push_back]

/-! ## Rendering -/

/-- C4: when the log is non-empty after the prune that `paintEvent` starts with,
`paintEvent` draws exactly one crimson or radius-10 ellipse: the crimson radius-10
dot of the last entry of the log (last by position in the sequence). It is the
final draw command, and every draw command before it is a dodger-blue ellipse of
radius 8. -/
theorem render_last_crimson {Pos : Type} (now : Int) (w : ClickWidget Pos)
    (hne : (w.pruneOldClicks now).m_clicks ≠ []) :
    ∃ (painter : QPainter Pos) (blues : List (Ellipse Pos)),
      w.paintEvent now = some (w.pruneOldClicks now, painter) ∧
      painter.drawn = blues ++ [crimsonDot ((w.pruneOldClicks now).m_clicks.getLast hne)] ∧
      (∀ e ∈ blues, e.brush = QBrush.SolidPattern dodgerBlue ∧ e.rx = 8 ∧ e.ry = 8) ∧
      painter.drawn.getLast? = some (crimsonDot ((w.pruneOldClicks now).m_clicks.getLast hne)) ∧
      painter.drawn.countP
        (fun e => decide (e.brush = QBrush.SolidPattern crimson ∨ e.rx = 10 ∨ e.ry = 10)) = 1 ∧
      painter.drawn.countP
        (fun e => decide (e.brush = QBrush.SolidPattern crimson ∧ e.rx = 10 ∧ e.ry = 10)) = 1 := by
  rcases List.eq_nil_or_concat (w.pruneOldClicks now).m_clicks with hl | ⟨l0, c, hl⟩
  · exact absurd hl hne
  · rw [List.concat_eq_append] at hl
    have hw : w.pruneOldClicks now = { m_clicks := l0 ++ [c] } := by
      cases hw0 : w.pruneOldClicks now
      rw [hw0] at hl
      simpa using hl
    have hlast : (w.pruneOldClicks now).m_clicks.getLast hne = c := by
      simp [hl]
    have hblue : ∀ e ∈ l0.map blueDot,
        e.brush = QBrush.SolidPattern dodgerBlue ∧ e.rx = 8 ∧ e.ry = 8 := by
      intro e he
      rcases List.mem_map.mp he with ⟨a, _, rfl⟩
      exact ⟨rfl, rfl, rfl⟩
    have hcol : QBrush.SolidPattern dodgerBlue ≠ QBrush.SolidPattern crimson := by decide
    refine ⟨QPainter.mk true QPen.NoPen (QBrush.SolidPattern crimson)
      (l0.map blueDot ++ [crimsonDot c]), l0.map blueDot, ?_, ?_, hblue, ?_, ?_, ?_⟩
    · rw [paintEvent_of_pruned_concat now w l0 c hl, hw]
    · rw [hlast]
    · rw [hlast]
      simp
    · rw [List.countP_append, List.countP_eq_zero.mpr]
      · simp [crimsonDot]
      · intro e he
        rcases hblue e he with ⟨hb, hx, hy⟩
        simp [hb, hx, hy, hcol]
    · rw [List.countP_append, List.countP_eq_zero.mpr]
      · simp [crimsonDot]
      · intro e he
        rcases hblue e he with ⟨hb, hx, hy⟩
        simp [hb, hx, hy, hcol]

/-- Witness of C4: a click at (30,30) recorded at 2000 after one at (20,20) recorded
at 1000, painted at 2100. -/
theorem render_last_crimson_witness :
    ∃ (painter : QPainter (Int × Int)) (blues : List (Ellipse (Int × Int))),
      (ClickWidget.mk [⟨(20, 20), 1000⟩, ⟨(30, 30), 2000⟩]).paintEvent 2100 =
        some ((ClickWidget.mk [⟨(20, 20), 1000⟩, ⟨(30, 30), 2000⟩]).pruneOldClicks 2100,
          painter) ∧
      painter.drawn = blues ++ [crimsonDot ⟨(30, 30), 2000⟩] ∧
      (∀ e ∈ blues, e.brush = QBrush.SolidPattern dodgerBlue ∧ e.rx = 8 ∧ e.ry = 8) ∧
      painter.drawn.getLast? = some (crimsonDot ⟨(30, 30), 2000⟩) ∧
      painter.drawn.countP
        (fun e => decide (e.brush = QBrush.SolidPattern crimson ∨ e.rx = 10 ∨ e.ry = 10)) = 1 ∧
      painter.drawn.countP
        (fun e => decide (e.brush = QBrush.SolidPattern crimson ∧ e.rx = 10 ∧ e.ry = 10)) = 1 :=
  render_last_crimson 2100 (ClickWidget.mk [⟨(20, 20), 1000⟩, ⟨(30, 30), 2000⟩]) (by decide)

/-- C5: `paintEvent` draws exactly one dot per entry of the pruned log and nothing for
expired entries: a dodger-blue radius-8 dot without outline for each entry but the
last, in log order, followed by the dot of the last entry; for every `qint64` clock
reading (`now < 2 ^ 63`) every dot comes from an event aged at most 3000 ms. Clicks
recorded at 0, 1000 and 2000 at (10,10), (20,20), (30,30) and painted at 2100 give
blue, blue, crimson. -/
theorem render_one_dot_per_live_click {Pos : Type} (now : Int) (w : ClickWidget Pos) :
    (∃ painter : QPainter Pos,
      w.paintEvent now = some (w.pruneOldClicks now, painter) ∧
      painter.drawn =
        (w.pruneOldClicks now).m_clicks.dropLast.map blueDot ++
          ((w.pruneOldClicks now).m_clicks.getLast?.map crimsonDot).toList ∧
      painter.drawn.length = (w.pruneOldClicks now).m_clicks.length ∧
      painter.drawn.map (fun e => e.center) =
        (w.pruneOldClicks now).m_clicks.map (fun c => c.pos) ∧
      (now < 2 ^ 63 →
        ∀ e ∈ painter.drawn, ∃ c ∈ w.m_clicks, now - c.timestamp ≤ 3000 ∧ e.center = c.pos)) ∧
    ((((ClickWidget.init : ClickWidget (Int × Int)).mousePressEvent (10, 10) 0).mousePressEvent
        (20, 20) 1000).mousePressEvent (30, 30) 2000).paintEvent 2100 =
      some ({ m_clicks := [⟨(10, 10), 0⟩, ⟨(20, 20), 1000⟩, ⟨(30, 30), 2000⟩] },
        { antialiasing := true, pen := QPen.NoPen, brush := QBrush.SolidPattern crimson,
          drawn := [blueDot ⟨(10, 10), 0⟩, blueDot ⟨(20, 20), 1000⟩,
            crimsonDot ⟨(30, 30), 2000⟩] }) := by
  constructor
  · obtain ⟨painter, hp, hd⟩ := paintEvent_eq now w
    have hcenter : painter.drawn.map (fun e => e.center) =
        (w.pruneOldClicks now).m_clicks.map (fun c => c.pos) := by
      rw [hd]
      rcases List.eq_nil_or_concat (w.pruneOldClicks now).m_clicks with hl | ⟨l0, c, hl⟩
      · simp [hl]
      · simp [hl, blueDot, crimsonDot, Function.comp_def]
    refine ⟨painter, hp, hd, ?_, hcenter, ?_⟩
    · have hlen := congrArg List.length hcenter
      simpa using hlen
    · intro hhi e he
      have hmem : e.center ∈ (w.pruneOldClicks now).m_clicks.map (fun c => c.pos) := by
        rw [← hcenter]
        exact List.mem_map.mpr ⟨e, he, rfl⟩
      rcases List.mem_map.mp hmem with ⟨c, hc, hpos⟩
      rw [pruneOldClicks_eq_filter] at hc
      have h := List.mem_filter.mp hc
      refine ⟨c, h.1, ?_, hpos.symm⟩
      have h2 := h.2
      simp only [decide_eq_true_eq] at h2
      have h3 := le_wrapInt64 (now - 3000) (by omega)
      omega
  · exact paintEvent_of_pruned_concat 2100 _ [⟨(10, 10), 0⟩, ⟨(20, 20), 1000⟩] ⟨(30, 30), 2000⟩
      (by decide)

/-- C8: single-click lifecycle. Starting from the empty log and recording one click at
position `p` and time `t`, painting at any clock reading `now` for which the `qint64`
subtraction `now - 3000` does not overflow draws exactly one dot, crimson with radius
10 at `p`, when `0 ≤ now - t ≤ 3000`, and draws nothing and leaves the log empty when
`now - t > 3000`. -/
theorem single_click_lifecycle {Pos : Type} (p : Pos) (t now : Int)
    (hlo : -(2 : Int) ^ 63 + 3000 ≤ now) (hhi : now < 2 ^ 63) :
    (0 ≤ now - t → now - t ≤ 3000 →
      ((ClickWidget.init : ClickWidget Pos).mousePressEvent p t).paintEvent now =
        some ({ m_clicks := [{ pos := p, timestamp := t }] },
          { antialiasing := true, pen := QPen.NoPen, brush := QBrush.SolidPattern crimson,
            drawn := [{ center := p, rx := 10, ry := 10, pen := QPen.NoPen,
                        brush := QBrush.SolidPattern crimson }] })) ∧
    (now - t > 3000 →
      ((ClickWidget.init : ClickWidget Pos).mousePressEvent p t).paintEvent now =
        some ({ m_clicks := [] },
          { antialiasing := true, pen := QPen.SolidLine, brush := QBrush.NoBrush,
            drawn := [] })) := by
  constructor
  · intro _ hle
    have hp : (((ClickWidget.init : ClickWidget Pos).mousePressEvent p t).pruneOldClicks
        now).m_clicks = [] ++ [{ pos := p, timestamp := t }] := by
      rw [pruneOldClicks_eq_filter_of_range now _ hlo hhi]
      simp [ClickWidget.mousePressEvent, ClickWidget.init, push_back]
      omega
    exact paintEvent_of_pruned_concat now _ [] _ hp
  · intro hgt
    apply paintEvent_of_pruned_nil
    rw [pruneOldClicks_eq_filter_of_range now _ hlo hhi]
    simp [ClickWidget.mousePressEvent, ClickWidget.init, push_back]
    omega

/-- Witness of C8: a click at (100,100) recorded at 0 is one crimson dot at 1000 and
no dot at 3500. -/
theorem single_click_lifecycle_witness :
    ((ClickWidget.init : ClickWidget (Int × Int)).mousePressEvent (100, 100) 0).paintEvent 1000 =
        some ({ m_clicks := [{ pos := (100, 100), timestamp := 0 }] },
          { antialiasing := true, pen := QPen.NoPen, brush := QBrush.SolidPattern crimson,
            drawn := [{ center := (100, 100), rx := 10, ry := 10, pen := QPen.NoPen,
                        brush := QBrush.SolidPattern crimson }] }) ∧
    ((ClickWidget.init : ClickWidget (Int × Int)).mousePressEvent (100, 100) 0).paintEvent 3500 =
        some ({ m_clicks := [] },
          { antialiasing := true, pen := QPen.SolidLine, brush := QBrush.NoBrush,
            drawn := [] }) :=
  ⟨(single_click_lifecycle (100, 100) 0 1000 (by decide) (by decide)).1 (by decide) (by decide),
    (single_click_lifecycle (100, 100) 0 3500 (by decide) (by decide)).2 (by decide)⟩

/-- C9: when every event of the log is older than 3000 ms at the `qint64` clock reading
`now` (`now < 2 ^ 63`), `pruneOldClicks` at `now` leaves the empty log; painting that empty log at `now` or at any later time
returns normally (no element access outside the vector is reached), draws nothing
and leaves the log empty. Painting never reads outside the vector, whatever the log. -/
theorem prune_all_expired_then_render_nothing {Pos : Type} (now : Int) (w : ClickWidget Pos)
    (hhi : now < 2 ^ 63) (hold : ∀ c ∈ w.m_clicks, now - c.timestamp > 3000) :
    w.pruneOldClicks now = { m_clicks := [] } ∧
    (∀ later : Int, now ≤ later →
      (w.pruneOldClicks now).paintEvent later =
        some ({ m_clicks := [] },
          { antialiasing := true, pen := QPen.SolidLine, brush := QBrush.NoBrush,
            drawn := [] })) ∧
    (∀ (v : ClickWidget Pos) (t : Int), (v.paintEvent t).isSome = true) := by
  have hnil : (w.pruneOldClicks now).m_clicks = [] := by
    rw [pruneOldClicks_eq_filter]
    apply List.filter_eq_nil_iff.mpr
    intro c hc
    have h := hold c hc
    have h3 := le_wrapInt64 (now - 3000) (by omega)
    simp only [decide_eq_true_eq]
    omega
  have hw : w.pruneOldClicks now = { m_clicks := [] } := by
    cases hw0 : w.pruneOldClicks now
    rw [hw0] at hnil
    simpa using hnil
  refine ⟨hw, ?_, ?_⟩
  · intro later _
    apply paintEvent_of_pruned_nil
    rw [hw, pruneOldClicks_eq_filter]
    rfl
  · intro v t
    obtain ⟨painter, hp, _⟩ := paintEvent_eq t v
    rw [hp]
    rfl

/-- Witness of C9: a single click recorded at 0, pruned at 3001 and painted at 3001. -/
theorem prune_all_expired_then_render_nothing_witness :
    (ClickWidget.mk [(⟨(5, 5), 0⟩ : ClickPoint (Int × Int))]).pruneOldClicks 3001 =
        { m_clicks := [] } ∧
    ((ClickWidget.mk [(⟨(5, 5), 0⟩ : ClickPoint (Int × Int))]).pruneOldClicks 3001).paintEvent
        3001 =
      some ({ m_clicks := [] },
        { antialiasing := true, pen := QPen.SolidLine, brush := QBrush.NoBrush, drawn := [] }) :=
  have h := prune_all_expired_then_render_nothing 3001
    (ClickWidget.mk [(⟨(5, 5), 0⟩ : ClickPoint (Int × Int))]) (by decide) (by decide)
  ⟨h.1, h.2.1 3001 (by decide)⟩

/-- C10: for a log ordered by non-decreasing timestamp, `pruneOldClicks` returns a
suffix of the log, and the removed events are an initial segment of the log, made of
events older than 3000 ms when the `qint64` subtraction `now - 3000` does not
underflow (`INT64_MIN + 3000 ≤ now`).
Hence, if the pruned log is non-empty, its last entry is the last entry of the log
before, and `paintEvent` draws that entry's crimson dot last, after blue dots only. -/
theorem prune_ordered_suffix {Pos : Type} (now : Int) (w : ClickWidget Pos)
    (hord : Ordered w.m_clicks) :
    (w.pruneOldClicks now).m_clicks <:+ w.m_clicks ∧
    (∃ removed : List (ClickPoint Pos),
      w.m_clicks = removed ++ (w.pruneOldClicks now).m_clicks ∧
      (-(2 : Int) ^ 63 + 3000 ≤ now → ∀ c ∈ removed, now - c.timestamp > 3000)) ∧
    ((w.pruneOldClicks now).m_clicks ≠ [] →
      ∃ last : ClickPoint Pos,
        w.m_clicks.getLast? = some last ∧
        (w.pruneOldClicks now).m_clicks.getLast? = some last ∧
        ∃ painter : QPainter Pos,
          w.paintEvent now = some (w.pruneOldClicks now, painter) ∧
          painter.drawn =
            (w.pruneOldClicks now).m_clicks.dropLast.map blueDot ++ [crimsonDot last]) := by
  obtain ⟨removed, heq, hlt⟩ :=
    filter_ge_is_suffix (wrapInt64 (now - 3000)) w.m_clicks ((ordered_iff_pairwise _).mp hord)
  rw [← pruneOldClicks_eq_filter] at heq
  refine ⟨⟨removed, heq.symm⟩, ⟨removed, heq, ?_⟩, ?_⟩
  · intro hlo c hc
    have h1 := hlt c hc
    have h2 := wrapInt64_le (now - 3000) (by omega)
    omega
  · intro hne
    obtain ⟨painter, hp, hd⟩ := paintEvent_eq now w
    rcases List.eq_nil_or_concat (w.pruneOldClicks now).m_clicks with hl | ⟨l0, c, hl⟩
    · exact absurd hl hne
    · rw [List.concat_eq_append] at hl
      refine ⟨c, ?_, ?_, painter, hp, ?_⟩
      · rw [heq, hl, ← List.append_assoc]
        simp
      · rw [hl]
        simp
      · rw [hd, hl]
        simp

/-- Witness of C10: clicks recorded at 0, 1000 and 4000, pruned at 4500. -/
theorem prune_ordered_suffix_witness :
    ((ClickWidget.mk [(⟨(1, 1), 0⟩ : ClickPoint (Int × Int)), ⟨(2, 2), 1000⟩,
        ⟨(3, 3), 4000⟩]).pruneOldClicks 4500).m_clicks = [⟨(3, 3), 4000⟩] ∧
    ((ClickWidget.mk [(⟨(1, 1), 0⟩ : ClickPoint (Int × Int)), ⟨(2, 2), 1000⟩,
        ⟨(3, 3), 4000⟩]).pruneOldClicks 4500).m_clicks <:+
      [(⟨(1, 1), 0⟩ : ClickPoint (Int × Int)), ⟨(2, 2), 1000⟩, ⟨(3, 3), 4000⟩] :=
  ⟨by decide,
    (prune_ordered_suffix 4500
      (ClickWidget.mk [(⟨(1, 1), 0⟩ : ClickPoint (Int × Int)), ⟨(2, 2), 1000⟩, ⟨(3, 3), 4000⟩])
      (by simp [Ordered])).1⟩

/-! ## Ordering of the log -/

/-- C6 fails as stated: two presses handled at clock readings 5 and then 3 leave the
log with timestamps 5, 3, which is not ordered. -/
theorem log_not_always_ordered :
    (run [Event.mousePress ((0, 0) : Int × Int) 5, Event.mousePress (1, 1) 3]).m_clicks =
        [⟨(0, 0), 5⟩, ⟨(1, 1), 3⟩] ∧
    ¬ Ordered (run [Event.mousePress ((0, 0) : Int × Int) 5, Event.mousePress (1, 1) 3]).m_clicks := by
  have h : (run [Event.mousePress ((0, 0) : Int × Int) 5, Event.mousePress (1, 1) 3]).m_clicks =
      [⟨(0, 0), 5⟩, ⟨(1, 1), 3⟩] := by decide
  refine ⟨h, ?_⟩
  rw [h]
  simp [Ordered]

/-- C6 amended: for every sequence of press, timer and paint events in which the clock
readings recorded by the presses are non-decreasing in delivery order, the log is
ordered by non-decreasing timestamp after every event: after each number `k` of
events handled, each entry is not later than the entry that follows it. -/
theorem log_ordered_of_monotone_records {Pos : Type} (events : List (Event Pos))
    (hmono : List.Chain' (fun a b : Int => a ≤ b) (recordedTimes events)) (k : Nat) :
    Ordered (run (events.take k)).m_clicks := by
  have hp : List.Pairwise (fun a b : Int => a ≤ b) (recordedTimes events) :=
    List.chain'_iff_pairwise.mp hmono
  have hsub : List.Sublist (recordedTimes (events.take k)) (recordedTimes events) :=
    (List.take_sublist k events).filterMap _
  have h0 : List.Pairwise (fun a b : Int => a ≤ b)
      ((ClickWidget.init : ClickWidget Pos).m_clicks.map (fun c => c.timestamp) ++
        recordedTimes (events.take k)) := by
    simpa [ClickWidget.init] using hp.sublist hsub
  have h1 := foldl_step_pairwise (events.take k) ClickWidget.init h0
  rw [ordered_iff_pairwise]
  exact (List.pairwise_map.mp h1)

/-- Witness of the amended C6: presses at 0, 1000 and 5000 with timer ticks and a paint
in between. -/
theorem log_ordered_of_monotone_records_witness :
    List.Chain' (fun a b : Int => a ≤ b)
      (recordedTimes [Event.mousePress ((0, 0) : Int × Int) 0, Event.timeout 50,
        Event.mousePress (1, 1) 1000, Event.paint 1001, Event.mousePress (2, 2) 5000,
        Event.timeout 5050]) ∧
    Ordered (run ([Event.mousePress ((0, 0) : Int × Int) 0, Event.timeout 50,
        Event.mousePress (1, 1) 1000, Event.paint 1001, Event.mousePress (2, 2) 5000,
        Event.timeout 5050].take 6)).m_clicks := by
  refine ⟨by simp [recordedTimes], ?_⟩
  exact log_ordered_of_monotone_records _ (by simp [recordedTimes]) 6

end MouseClick
